import Mathlib

/-!
Shallow embedding of the multiplayer relay sources
(`src/Multiplayer/Server.cpp`, `src/Client/Client.cpp`):
the wire codec (`serializeMessage` / `deserializeMessage`), the server
connection handler and broadcast hub, and the client mailbox classifier
and drain loop.  Bytes are modelled as `Nat` values (< 256 where it
matters), `std::vector<uint8_t>` as `List Nat`, and `uint8_t` / `uint32_t`
arithmetic with explicit `% 256` / `% 2 ^ 32`.
-/

/-- The four bytes appended for a `uint32_t length = htonl(size)` followed by
`buffer.insert(buffer.end(), (uint8_t*)&length, ...)`: the big-endian bytes of
`size` truncated to 32 bits (the `size_t → uint32_t` conversion is `% 2 ^ 32`). -/
def u32be (n : Nat) : List Nat :=
  [n / 2 ^ 24 % 256, n / 2 ^ 16 % 256, n / 2 ^ 8 % 256, n % 256]

/-- The value read back by `memcpy(&length, &buffer[offset], 4); length = ntohl(length)`:
a big-endian 32-bit read of the four bytes at offsets 2..5. -/
def readU32be (a b c d : Nat) : Nat :=
  ((a * 256 + b) * 256 + c) * 256 + d

/-- The closed message hierarchy of the sources: `BaseMessage` is only ever
instantiated through `TextMessage` (tag 0), `EventMessage` (tag 1) and
`SnapshotMessage` (tag 2), each carrying a `uint8_t` sender and a byte payload. -/
inductive Message where
  | text (senderID : Nat) (payload : List Nat)
  | event (senderID : Nat) (payload : List Nat)
  | snapshot (senderID : Nat) (payload : List Nat)
deriving DecidableEq

/-- The `messageType` field: `TEXT_MESSAGE = 0`, `EVENT_MESSAGE = 1`,
`SNAPSHOT_MESSAGE = 2`. -/
def Message.messageType : Message → Nat
  | .text _ _ => 0
  | .event _ _ => 1
  | .snapshot _ _ => 2

/-- The `senderID` field of `BaseMessage`. -/
def Message.senderID : Message → Nat
  | .text s _ => s
  | .event s _ => s
  | .snapshot s _ => s

/-- The payload byte vector (`text` / `eventData` / `snapshotData`). -/
def Message.payload : Message → List Nat
  | .text _ p => p
  | .event _ p => p
  | .snapshot _ p => p

/-- The assignment `msg->senderID = clientID` in `Server::handleClient`. -/
def Message.withSenderID : Message → Nat → Message
  | .text _ p, s => .text s p
  | .event _ p, s => .event s p
  | .snapshot _ p, s => .snapshot s p

/-- Function `serializeMessage`: `[messageType][senderID][4-byte big-endian length][payload]`.
The switch emits the same shape for each of the three concrete message classes. -/
def serializeMessage (msg : Message) : List Nat :=
  match msg with
  | .text sender text => 0 :: sender :: (u32be text.length ++ text)
  | .event sender data => 1 :: sender :: (u32be data.length ++ data)
  | .snapshot sender data => 2 :: sender :: (u32be data.length ++ data)

/-- The payload length declared by a frame's bytes at offsets 2..5. -/
def declaredLen (buffer : List Nat) : Nat :=
  readU32be (buffer.getD 2 0) (buffer.getD 3 0) (buffer.getD 4 0) (buffer.getD 5 0)

/-- The kind byte at offset 0 is one of the three known `messageType` constants
(the non-`default` cases of the `switch` in `deserializeMessage`). -/
def knownKind (buffer : List Nat) : Prop :=
  buffer.getD 0 0 = 0 ∨ buffer.getD 0 0 = 1 ∨ buffer.getD 0 0 = 2

instance (buffer : List Nat) : Decidable (knownKind buffer) := by
  unfold knownKind
  infer_instance

/-- Function `deserializeMessage`: returns `none` exactly where the C++ returns `nullptr`
(buffer shorter than the 2-byte header; shorter than header plus 4-byte length
field; declared length exceeding the bytes after offset 6; unknown kind byte).
Each known case re-checks its own bounds, as in the C++ `switch`. -/
def deserializeMessage (buffer : List Nat) : Option Message :=
  if buffer.length < 2 then none
  else
    let messageType := buffer.getD 0 0
    let senderID := buffer.getD 1 0
    if messageType = 0 then
      if buffer.length < 2 + 4 then none
      else
        let length := declaredLen buffer
        if buffer.length < 6 + length then none
        else some (.text senderID ((buffer.drop 6).take length))
    else if messageType = 1 then
      if buffer.length < 2 + 4 then none
      else
        let length := declaredLen buffer
        if buffer.length < 6 + length then none
        else some (.event senderID ((buffer.drop 6).take length))
    else if messageType = 2 then
      if buffer.length < 2 + 4 then none
      else
        let length := declaredLen buffer
        if buffer.length < 6 + length then none
        else some (.snapshot senderID ((buffer.drop 6).take length))
    else none

lemma readU32be_u32be (n : Nat) :
    readU32be (n / 2 ^ 24 % 256) (n / 2 ^ 16 % 256) (n / 2 ^ 8 % 256) (n % 256) =
      n % 2 ^ 32 := by
  unfold readU32be
  omega

lemma declaredLen_serialize (msg : Message) :
    declaredLen (serializeMessage msg) = msg.payload.length % 2 ^ 32 := by
  cases msg <;>
    simp [declaredLen, serializeMessage, u32be, Message.payload, readU32be_u32be,
      readU32be]
  all_goals omega

lemma length_serialize (msg : Message) :
    (serializeMessage msg).length = 6 + msg.payload.length := by
  cases msg <;> simp [serializeMessage, u32be, Message.payload] <;> omega

lemma declaredLen_cons (t s n : Nat) (p : List Nat) :
    declaredLen (t :: s :: (u32be n ++ p)) = n % 2 ^ 32 := by
  simp only [u32be, List.cons_append, List.nil_append, declaredLen,
    List.getD_cons_succ, List.getD_cons_zero]
  unfold readU32be
  omega

lemma deserializeMessage_cons_eq (t s : Nat) (p : List Nat)
    (hlen : p.length < 2 ^ 32) :
    deserializeMessage (t :: s :: (u32be p.length ++ p)) =
      if t = 0 then some (.text s p)
      else if t = 1 then some (.event s p)
      else if t = 2 then some (.snapshot s p)
      else none := by
  have hL : (t :: s :: (u32be p.length ++ p)).length = 6 + p.length := by
    simp [u32be]
    omega
  have hd : declaredLen (t :: s :: (u32be p.length ++ p)) = p.length := by
    rw [declaredLen_cons, Nat.mod_eq_of_lt hlen]
  have hdrop : (t :: s :: (u32be p.length ++ p)).drop 6 = p := by
    simp [u32be]
  have hg0 : (t :: s :: (u32be p.length ++ p)).getD 0 0 = t := rfl
  have hg1 : (t :: s :: (u32be p.length ++ p)).getD 1 0 = s := rfl
  have c1 : ¬ (6 + p.length < 2) := by omega
  have c2 : ¬ (6 + p.length < 2 + 4) := by omega
  have c3 : ¬ (6 + p.length < 6 + p.length) := by omega
  simp only [deserializeMessage, hL, hd, hdrop, hg0, hg1, List.take_length,
    c1, c2, c3, if_false]

/-- Claim C1 (amended): for every message whose payload is shorter than `2 ^ 32`
bytes, decoding the frame produced by `serializeMessage` returns the message
unchanged in kind, sender and exact payload bytes. -/
theorem deserialize_serialize_roundtrip (m : Message)
    (hs : m.senderID < 256) (hb : ∀ b ∈ m.payload, b < 256)
    (hlen : m.payload.length < 2 ^ 32) :
    deserializeMessage (serializeMessage m) = some m := by
  cases m with
  | text sender p =>
    show deserializeMessage (0 :: sender :: (u32be p.length ++ p)) = _
    rw [deserializeMessage_cons_eq 0 sender p hlen]
    simp
  | event sender p =>
    show deserializeMessage (1 :: sender :: (u32be p.length ++ p)) = _
    rw [deserializeMessage_cons_eq 1 sender p hlen]
    simp
  | snapshot sender p =>
    show deserializeMessage (2 :: sender :: (u32be p.length ++ p)) = _
    rw [deserializeMessage_cons_eq 2 sender p hlen]
    simp

lemma deserializeMessage_cons (t s a b c d : Nat) (p : List Nat)
    (hlen : readU32be a b c d ≤ p.length) :
    deserializeMessage (t :: s :: a :: b :: c :: d :: p) =
      if t = 0 then some (.text s (p.take (readU32be a b c d)))
      else if t = 1 then some (.event s (p.take (readU32be a b c d)))
      else if t = 2 then some (.snapshot s (p.take (readU32be a b c d)))
      else none := by
  have hL : (t :: s :: a :: b :: c :: d :: p).length = p.length + 6 := by
    simp only [List.length_cons]
  have hd : declaredLen (t :: s :: a :: b :: c :: d :: p) = readU32be a b c d := rfl
  have hg0 : (t :: s :: a :: b :: c :: d :: p).getD 0 0 = t := rfl
  have hg1 : (t :: s :: a :: b :: c :: d :: p).getD 1 0 = s := rfl
  have hdrop : (t :: s :: a :: b :: c :: d :: p).drop 6 = p := rfl
  have c1 : ¬ (p.length + 6 < 2) := by omega
  have c2 : ¬ (p.length + 6 < 2 + 4) := by omega
  have c3 : ¬ (p.length + 6 < 6 + readU32be a b c d) := by omega
  simp only [deserializeMessage, hL, hd, hg0, hg1, hdrop, c1, c2, c3, if_false]

/-- Counterexample to claim C1 as stated: for the Text message whose payload is
`2 ^ 32` zero bytes, `serializeMessage` truncates the length field to
`2 ^ 32 % 2 ^ 32 = 0`, so decoding the frame yields the empty payload instead of
the original one. -/
theorem deserialize_serialize_roundtrip_fails_at_2_pow_32 :
    deserializeMessage (serializeMessage (Message.text 0 (List.replicate (2 ^ 32) 0))) ≠
      some (Message.text 0 (List.replicate (2 ^ 32) 0)) := by
  have hu : u32be (2 ^ 32) = [0, 0, 0, 0] := by
    unfold u32be
    norm_num
  have hbuf : serializeMessage (Message.text 0 (List.replicate (2 ^ 32) 0)) =
      0 :: 0 :: 0 :: 0 :: 0 :: 0 :: List.replicate (2 ^ 32) 0 := by
    show 0 :: 0 :: (u32be (List.replicate (2 ^ 32) (0 : Nat)).length ++
        List.replicate (2 ^ 32) 0) = _
    rw [List.length_replicate, hu, List.cons_append, List.cons_append,
      List.cons_append, List.cons_append, List.nil_append]
  have hlen0 : readU32be 0 0 0 0 ≤ (List.replicate (2 ^ 32) (0 : Nat)).length := by
    rw [List.length_replicate]
    norm_num [readU32be]
  rw [hbuf, deserializeMessage_cons 0 0 0 0 0 0 _ hlen0, if_pos rfl,
    show readU32be 0 0 0 0 = 0 from rfl, List.take_zero]
  intro h
  have h1 : Message.text 0 [] = Message.text 0 (List.replicate (2 ^ 32) 0) :=
    Option.some.inj h
  have h2 : ([] : List Nat) = List.replicate (2 ^ 32) 0 := by
    injection h1
  have h3 := congrArg List.length h2
  rw [List.length_replicate] at h3
  norm_num at h3

/-- Witness for `deserialize_serialize_roundtrip` at a concrete message. -/
theorem deserialize_serialize_roundtrip_witness :
    ((Message.event 7 [10, 20]).senderID < 256 ∧
        (∀ b ∈ (Message.event 7 [10, 20]).payload, b < 256) ∧
        (Message.event 7 [10, 20]).payload.length < 2 ^ 32) ∧
      deserializeMessage (serializeMessage (Message.event 7 [10, 20])) =
        some (Message.event 7 [10, 20]) :=
  ⟨⟨by decide, by decide, by decide⟩,
    deserialize_serialize_roundtrip (Message.event 7 [10, 20]) (by decide) (by decide)
      (by decide)⟩

lemma deserializeMessage_eq_none_iff (buffer : List Nat) :
    deserializeMessage buffer = none ↔
      buffer.length < 2 ∨ (knownKind buffer ∧ buffer.length < 6) ∨
        buffer.length - 6 < declaredLen buffer ∨ ¬ knownKind buffer := by
  have hkk : knownKind buffer ↔
      buffer.getD 0 0 = 0 ∨ buffer.getD 0 0 = 1 ∨ buffer.getD 0 0 = 2 := Iff.rfl
  simp only [deserializeMessage]
  by_cases h2 : buffer.length < 2
  · rw [if_pos h2]
    exact iff_of_true rfl (Or.inl h2)
  rw [if_neg h2]
  by_cases ht0 : buffer.getD 0 0 = 0
  · rw [if_pos ht0]
    by_cases h6 : buffer.length < 2 + 4
    · rw [if_pos h6]
      exact iff_of_true rfl (Or.inr (Or.inl ⟨hkk.mpr (Or.inl ht0), by omega⟩))
    rw [if_neg h6]
    by_cases hd : buffer.length < 6 + declaredLen buffer
    · rw [if_pos hd]
      exact iff_of_true rfl (Or.inr (Or.inr (Or.inl (by omega))))
    rw [if_neg hd]
    apply iff_of_false (by simp)
    rintro (h | ⟨_, h⟩ | h | h)
    · omega
    · omega
    · omega
    · exact h (hkk.mpr (Or.inl ht0))
  rw [if_neg ht0]
  by_cases ht1 : buffer.getD 0 0 = 1
  · rw [if_pos ht1]
    by_cases h6 : buffer.length < 2 + 4
    · rw [if_pos h6]
      exact iff_of_true rfl (Or.inr (Or.inl ⟨hkk.mpr (Or.inr (Or.inl ht1)), by omega⟩))
    rw [if_neg h6]
    by_cases hd : buffer.length < 6 + declaredLen buffer
    · rw [if_pos hd]
      exact iff_of_true rfl (Or.inr (Or.inr (Or.inl (by omega))))
    rw [if_neg hd]
    apply iff_of_false (by simp)
    rintro (h | ⟨_, h⟩ | h | h)
    · omega
    · omega
    · omega
    · exact h (hkk.mpr (Or.inr (Or.inl ht1)))
  rw [if_neg ht1]
  by_cases ht2 : buffer.getD 0 0 = 2
  · rw [if_pos ht2]
    by_cases h6 : buffer.length < 2 + 4
    · rw [if_pos h6]
      exact iff_of_true rfl
        (Or.inr (Or.inl ⟨hkk.mpr (Or.inr (Or.inr ht2)), by omega⟩))
    rw [if_neg h6]
    by_cases hd : buffer.length < 6 + declaredLen buffer
    · rw [if_pos hd]
      exact iff_of_true rfl (Or.inr (Or.inr (Or.inl (by omega))))
    rw [if_neg hd]
    apply iff_of_false (by simp)
    rintro (h | ⟨_, h⟩ | h | h)
    · omega
    · omega
    · omega
    · exact h (hkk.mpr (Or.inr (Or.inr ht2)))
  rw [if_neg ht2]
  exact iff_of_true rfl
    (Or.inr (Or.inr (Or.inr (fun h => (hkk.mp h).elim ht0 (fun h1 => h1.elim ht1 ht2)))))

lemma getD_take_of_lt (l : List Nat) (k i : Nat) (h : i < k) :
    (l.take k).getD i 0 = l.getD i 0 := by
  rw [List.getD_eq_getD_get?, List.getD_eq_getD_get?, List.get?_eq_getElem?,
    List.get?_eq_getElem?, List.getElem?_take_of_lt h]

lemma serialize_getD_zero (m : Message) : (serializeMessage m).getD 0 0 = m.messageType := by
  cases m <;> rfl

/-- Claim C5: `deserializeMessage` fails exactly when the buffer is shorter than
the 2-byte header, or the kind is known but the buffer is shorter than header
plus the 4-byte length field, or the declared big-endian payload length exceeds
the bytes remaining after offset 6, or the kind byte is unknown; in particular
any strict prefix of a serialized frame ending before the declared payload end
fails to decode. -/
theorem deserialize_failure_characterization :
    (∀ buffer : List Nat,
        deserializeMessage buffer = none ↔
          buffer.length < 2 ∨ (knownKind buffer ∧ buffer.length < 6) ∨
            buffer.length - 6 < declaredLen buffer ∨ ¬ knownKind buffer) ∧
    (∀ (m : Message) (k : Nat), k < 6 + declaredLen (serializeMessage m) →
        deserializeMessage ((serializeMessage m).take k) = none) := by
  refine ⟨deserializeMessage_eq_none_iff, fun m k hk => ?_⟩
  have hdecl := declaredLen_serialize m
  have hlenS := length_serialize m
  have hdle : declaredLen (serializeMessage m) ≤ m.payload.length := by
    rw [hdecl]
    exact Nat.mod_le _ _
  have hkL : k ≤ (serializeMessage m).length := by omega
  have htakeL : ((serializeMessage m).take k).length = k := by
    rw [List.length_take]
    omega
  rw [deserializeMessage_eq_none_iff]
  by_cases h2 : k < 2
  · exact Or.inl (by omega)
  by_cases h6 : k < 6
  · refine Or.inr (Or.inl ⟨?_, by omega⟩)
    have hg : ((serializeMessage m).take k).getD 0 0 = m.messageType := by
      rw [getD_take_of_lt _ _ _ (by omega), serialize_getD_zero]
    unfold knownKind
    rw [hg]
    cases m <;> simp [Message.messageType]
  refine Or.inr (Or.inr (Or.inl ?_))
  have hdeq : declaredLen ((serializeMessage m).take k) = declaredLen (serializeMessage m) := by
    unfold declaredLen
    rw [getD_take_of_lt _ _ _ (by omega), getD_take_of_lt _ _ _ (by omega),
      getD_take_of_lt _ _ _ (by omega), getD_take_of_lt _ _ _ (by omega)]
  rw [hdeq, htakeL]
  omega

/-- Witness for `deserialize_failure_characterization`: the iff at a short
buffer, and prefix failure for a concrete frame. -/
theorem deserialize_failure_characterization_witness :
    (deserializeMessage [0] = none ↔
       ([0] : List Nat).length < 2 ∨ (knownKind [0] ∧ ([0] : List Nat).length < 6) ∨
         ([0] : List Nat).length - 6 < declaredLen [0] ∨ ¬ knownKind [0]) ∧
      (3 < 6 + declaredLen (serializeMessage (Message.text 1 [9])) ∧
        deserializeMessage ((serializeMessage (Message.text 1 [9])).take 3) = none) :=
  ⟨deserialize_failure_characterization.1 [0],
    by decide,
    deserialize_failure_characterization.2 (Message.text 1 [9]) 3 (by decide)⟩

/-- Counterexample to claim C6 as stated: `deserializeMessage` succeeds on a
7-byte buffer whose declared payload length is 0, so a successful decode does
not imply that the buffer is exactly `6 + declared length` bytes long — trailing
bytes are tolerated and ignored. -/
theorem deserialize_tolerates_trailing_bytes :
    deserializeMessage [0, 0, 0, 0, 0, 0, 7] = some (Message.text 0 []) ∧
      ([0, 0, 0, 0, 0, 0, 7] : List Nat).length ≠
        6 + (Message.text 0 []).payload.length := by
  decide

/-- Claim C6 (amended): whenever `deserializeMessage` succeeds, the produced
payload has exactly the declared length (including zero) and the buffer holds at
least `6 + declared length` bytes; bytes beyond the declared payload end are
ignored, not rejected. -/
theorem deserialize_success_consumes_declared (buffer : List Nat) (m : Message)
    (h : deserializeMessage buffer = some m) :
    m.payload.length = declaredLen buffer ∧ 6 + declaredLen buffer ≤ buffer.length ∧
      m.payload = (buffer.drop 6).take (declaredLen buffer) := by
  simp only [deserializeMessage] at h
  by_cases h2 : buffer.length < 2
  · rw [if_pos h2] at h
    exact Option.noConfusion h
  rw [if_neg h2] at h
  have hlen : ∀ L : Nat, ¬ buffer.length < 6 + L → L ≤ buffer.length - 6 := by
    intro L hL
    omega
  by_cases ht0 : buffer.getD 0 0 = 0
  · rw [if_pos ht0] at h
    by_cases h6 : buffer.length < 2 + 4
    · rw [if_pos h6] at h
      exact Option.noConfusion h
    rw [if_neg h6] at h
    by_cases hd : buffer.length < 6 + declaredLen buffer
    · rw [if_pos hd] at h
      exact Option.noConfusion h
    rw [if_neg hd] at h
    have hm := Option.some.inj h
    refine ⟨?_, by omega, ?_⟩ <;> rw [← hm, Message.payload]
    · rw [List.length_take, List.length_drop]
      omega
  · rw [if_neg ht0] at h
    by_cases ht1 : buffer.getD 0 0 = 1
    · rw [if_pos ht1] at h
      by_cases h6 : buffer.length < 2 + 4
      · rw [if_pos h6] at h
        exact Option.noConfusion h
      rw [if_neg h6] at h
      by_cases hd : buffer.length < 6 + declaredLen buffer
      · rw [if_pos hd] at h
        exact Option.noConfusion h
      rw [if_neg hd] at h
      have hm := Option.some.inj h
      refine ⟨?_, by omega, ?_⟩ <;> rw [← hm, Message.payload]
      · rw [List.length_take, List.length_drop]
        omega
    · rw [if_neg ht1] at h
      by_cases ht2 : buffer.getD 0 0 = 2
      · rw [if_pos ht2] at h
        by_cases h6 : buffer.length < 2 + 4
        · rw [if_pos h6] at h
          exact Option.noConfusion h
        rw [if_neg h6] at h
        by_cases hd : buffer.length < 6 + declaredLen buffer
        · rw [if_pos hd] at h
          exact Option.noConfusion h
        rw [if_neg hd] at h
        have hm := Option.some.inj h
        refine ⟨?_, by omega, ?_⟩ <;> rw [← hm, Message.payload]
        · rw [List.length_take, List.length_drop]
          omega
      · rw [if_neg ht2] at h
        exact Option.noConfusion h

/-- Witness for `deserialize_success_consumes_declared` at a concrete buffer
with a trailing byte. -/
theorem deserialize_success_consumes_declared_witness :
    deserializeMessage [1, 3, 0, 0, 0, 2, 8, 9, 7] = some (Message.event 3 [8, 9]) ∧
      ((Message.event 3 [8, 9]).payload.length = declaredLen [1, 3, 0, 0, 0, 2, 8, 9, 7] ∧
        6 + declaredLen [1, 3, 0, 0, 0, 2, 8, 9, 7] ≤
          ([1, 3, 0, 0, 0, 2, 8, 9, 7] : List Nat).length ∧
        (Message.event 3 [8, 9]).payload =
          (([1, 3, 0, 0, 0, 2, 8, 9, 7] : List Nat).drop 6).take
            (declaredLen [1, 3, 0, 0, 0, 2, 8, 9, 7])) :=
  ⟨by decide,
    deserialize_success_consumes_declared [1, 3, 0, 0, 0, 2, 8, 9, 7]
      (Message.event 3 [8, 9]) (by decide)⟩

/-- Lines 189–193 of `Server::handleClient`: decode the fully-read frame and, on
success, overwrite `senderID` with this connection's registry id; the result is
the message handed to `broadcastMessage`. -/
def serverHandleFrame (clientID : Nat) (buffer : List Nat) : Option Message :=
  (deserializeMessage buffer).map (fun msg => msg.withSenderID clientID)

lemma deserializeMessage_senderID_byte (t s b : Nat) (rest : List Nat) :
    deserializeMessage (t :: b :: rest) =
      (deserializeMessage (t :: s :: rest)).map (fun m => m.withSenderID b) := by
  have hLb : (t :: b :: rest).length = rest.length + 2 := by
    simp only [List.length_cons]
  have hLs : (t :: s :: rest).length = rest.length + 2 := by
    simp only [List.length_cons]
  have hdecl : declaredLen (t :: b :: rest) = declaredLen (t :: s :: rest) := rfl
  have h2 : ¬ (rest.length + 2 < 2) := by omega
  simp only [deserializeMessage, hLb, hLs, hdecl,
    show (t :: b :: rest).getD 0 0 = t from rfl,
    show (t :: s :: rest).getD 0 0 = t from rfl,
    show (t :: b :: rest).getD 1 0 = b from rfl,
    show (t :: s :: rest).getD 1 0 = s from rfl,
    show (t :: b :: rest).drop 6 = (t :: s :: rest).drop 6 from rfl,
    h2, if_false]
  by_cases ht0 : t = 0
  · rw [if_pos ht0, if_pos ht0]
    by_cases h6 : rest.length + 2 < 2 + 4
    · rw [if_pos h6, if_pos h6]
      rfl
    rw [if_neg h6, if_neg h6]
    by_cases hd : rest.length + 2 < 6 + declaredLen (t :: s :: rest)
    · rw [if_pos hd, if_pos hd]
      rfl
    rw [if_neg hd, if_neg hd]
    rfl
  rw [if_neg ht0, if_neg ht0]
  by_cases ht1 : t = 1
  · rw [if_pos ht1, if_pos ht1]
    by_cases h6 : rest.length + 2 < 2 + 4
    · rw [if_pos h6, if_pos h6]
      rfl
    rw [if_neg h6, if_neg h6]
    by_cases hd : rest.length + 2 < 6 + declaredLen (t :: s :: rest)
    · rw [if_pos hd, if_pos hd]
      rfl
    rw [if_neg hd, if_neg hd]
    rfl
  rw [if_neg ht1, if_neg ht1]
  by_cases ht2 : t = 2
  · rw [if_pos ht2, if_pos ht2]
    by_cases h6 : rest.length + 2 < 2 + 4
    · rw [if_pos h6, if_pos h6]
      rfl
    rw [if_neg h6, if_neg h6]
    by_cases hd : rest.length + 2 < 6 + declaredLen (t :: s :: rest)
    · rw [if_pos hd, if_pos hd]
      rfl
    rw [if_neg hd, if_neg hd]
    rfl
  rw [if_neg ht2, if_neg ht2]
  rfl

lemma deserializeMessage_set1 (buffer : List Nat) (b : Nat) :
    deserializeMessage (buffer.set 1 b) =
      (deserializeMessage buffer).map (fun m => m.withSenderID b) := by
  match buffer with
  | [] => rfl
  | [t] => rfl
  | t :: s :: rest =>
    show deserializeMessage (t :: b :: rest) = _
    exact deserializeMessage_senderID_byte t s b rest

/-- Claim C2: on decode success the message handed to the broadcast hub carries
the connection's registry id as `senderID`, whatever the inbound frame declared;
hence two inbound frames differing only in their senderId byte (offset 1)
produce the same handler output. -/
theorem handler_overwrites_senderID (c : Nat) (buffer : List Nat) (b : Nat) :
    (∀ m, serverHandleFrame c buffer = some m → m.senderID = c) ∧
      serverHandleFrame c (buffer.set 1 b) = serverHandleFrame c buffer := by
  constructor
  · intro m hm
    unfold serverHandleFrame at hm
    cases hdec : deserializeMessage buffer with
    | none =>
      rw [hdec] at hm
      exact Option.noConfusion hm
    | some msg =>
      rw [hdec] at hm
      have h1 : msg.withSenderID c = m := Option.some.inj hm
      rw [← h1]
      cases msg <;> rfl
  · unfold serverHandleFrame
    rw [deserializeMessage_set1, Option.map_map]
    congr 1
    funext m
    cases m <;> rfl

/-- Witness for `handler_overwrites_senderID` at a concrete frame whose declared
sender byte 9 differs from the registry id 5. -/
theorem handler_overwrites_senderID_witness :
    (Message.text 5 []).senderID = 5 ∧
      serverHandleFrame 5 ([0, 9, 0, 0, 0, 0].set 1 3) =
        serverHandleFrame 5 [0, 9, 0, 0, 0, 0] :=
  ⟨(handler_overwrites_senderID 5 [0, 9, 0, 0, 0, 0] 3).1 (Message.text 5 []) (by decide),
    (handler_overwrites_senderID 5 [0, 9, 0, 0, 0, 0] 3).2⟩

/-- The per-connection entry of the server registry (`ClientHandler`): a socket
and the assigned `uint8_t` client id. -/
structure ClientHandler where
  socket : Nat
  clientID : Nat
deriving DecidableEq

/-- The byte stream written to one receiving socket by `broadcastMessage`: the
4-byte big-endian `htonl(buffer.size())` stream-length prefix followed by the
serialized frame. -/
def wireFrame (msg : Message) : List Nat :=
  u32be (serializeMessage msg).length ++ serializeMessage msg

/-- Method `Server::broadcastMessage`: serialize once, then under the registry lock
write the length-prefixed frame to every registered connection whose id differs
from `excludeID`.  The result lists, in registry order, each connection written
to together with the bytes sent to it. -/
def broadcastMessage (msg : Message) (excludeID : Nat) (clients : List ClientHandler) :
    List (ClientHandler × List Nat) :=
  clients.filterMap fun clientHandler =>
    if clientHandler.clientID ≠ excludeID then some (clientHandler, wireFrame msg)
    else none

/-- Claim C3: `broadcastMessage msg X clients` writes the encoded
length-prefixed frame to exactly the registered connections whose id is not
`X`: a connection receives bytes iff it is registered with id ≠ X, and what it
receives is the length-prefixed frame. -/
theorem broadcast_exclusion (msg : Message) (X : Nat) (clients : List ClientHandler)
    (ch : ClientHandler) (bytes : List Nat) :
    (ch, bytes) ∈ broadcastMessage msg X clients ↔
      ch ∈ clients ∧ ch.clientID ≠ X ∧ bytes = wireFrame msg := by
  simp only [broadcastMessage, List.mem_filterMap]
  constructor
  · rintro ⟨a, ha, hfa⟩
    by_cases h : a.clientID ≠ X
    · rw [if_pos h] at hfa
      have hp := Option.some.inj hfa
      have hch : a = ch := congrArg Prod.fst hp
      have hby : wireFrame msg = bytes := congrArg Prod.snd hp
      subst hch
      exact ⟨ha, h, hby.symm⟩
    · rw [if_neg h] at hfa
      exact Option.noConfusion hfa
  · rintro ⟨hmem, hne, hbytes⟩
    refine ⟨ch, hmem, ?_⟩
    rw [if_pos hne, hbytes]

/-- Outcome of one iteration of the `while (isRunning)` loop in
`Server::handleClient`: either the loop breaks, or it proceeds to the next
iteration, having possibly handed a (stamped message, excluded id) pair to
`broadcastMessage`. -/
inductive LoopOutcome where
  | exitLoop
  | nextIteration (handed : Option (Message × Nat))
deriving DecidableEq

/-- One iteration of `Server::handleClient` for the connection with registry id
`clientID`.  `sizeRecv` is the result of the 4-byte length read (`none` models
`recv` returning 0 or negative), `dataRecv` the result of the payload read loop
(`none` models a short/zero/negative read; `some buffer` a fully-read frame).
On decode success the stamped message is broadcast with the handler's own id
excluded; on decode failure (`deserializeMessage` returns `none`, i.e. the C++
`if (msg)` guard fails) the frame is dropped and the loop continues. -/
def handleClientIteration (clientID : Nat) (sizeRecv : Option Nat)
    (dataRecv : Option (List Nat)) : LoopOutcome :=
  match sizeRecv with
  | none => .exitLoop
  | some _ =>
    match dataRecv with
    | none => .exitLoop
    | some buffer =>
      match deserializeMessage buffer with
      | some msg => .nextIteration (some (msg.withSenderID clientID, clientID))
      | none => .nextIteration none

/-- Counterexample to claim C7 as stated: on the fully-read 2-byte frame
`[9, 0]` (unknown kind byte 9) decode fails, yet the handler does not terminate
its read loop — it drops the frame and continues. -/
theorem decode_failure_does_not_terminate_loop :
    deserializeMessage [9, 0] = none ∧
      handleClientIteration 1 (some 2) (some [9, 0]) ≠ LoopOutcome.exitLoop := by
  decide

/-- Claim C7 (amended): the server handler terminates its read loop exactly on a
short/zero/negative read of the length field or of the payload; when a
fully-read frame fails to decode, the handler drops it, broadcasts nothing, and
continues the loop. -/
theorem handler_exit_iff_read_failure (c : Nat) (sizeRecv : Option Nat)
    (dataRecv : Option (List Nat)) (sz : Nat) (buffer : List Nat) :
    (handleClientIteration c sizeRecv dataRecv = LoopOutcome.exitLoop ↔
        sizeRecv = none ∨ dataRecv = none) ∧
      (deserializeMessage buffer = none →
        handleClientIteration c (some sz) (some buffer) = LoopOutcome.nextIteration none) := by
  constructor
  · cases sizeRecv with
    | none => simp [handleClientIteration]
    | some n =>
      cases dataRecv with
      | none => simp [handleClientIteration]
      | some buf =>
        simp only [handleClientIteration]
        cases deserializeMessage buf <;> simp
  · intro hdec
    simp only [handleClientIteration, hdec]

/-- Witness for `handler_exit_iff_read_failure` on a malformed concrete frame. -/
theorem handler_exit_iff_read_failure_witness :
    (handleClientIteration 4 (some 2) (some [9, 0]) = LoopOutcome.exitLoop ↔
        (some 2 : Option Nat) = none ∨ (some [9, 0] : Option (List Nat)) = none) ∧
      handleClientIteration 4 (some 2) (some [9, 0]) = LoopOutcome.nextIteration none :=
  ⟨(handler_exit_iff_read_failure 4 (some 2) (some [9, 0]) 2 [9, 0]).1,
    (handler_exit_iff_read_failure 4 (some 2) (some [9, 0]) 2 [9, 0]).2 (by decide)⟩

/-- The client mailbox: the three containers guarded by `messageMutex` —
`std::vector<TextMessage>`, `std::vector<EventMessage>` and
`std::map<uint8_t, SnapshotMessage>`.  Entries are (senderID, payload) pairs;
the snapshot map is its in-order entry list (sorted by key, unique keys). -/
structure Mailbox where
  textMessages : List (Nat × List Nat)
  eventMessages : List (Nat × List Nat)
  snapshotMessages : List (Nat × List Nat)
deriving DecidableEq

/-- Assignment `snapshotMessages[key] = value` on a `std::map` held as its sorted entry
list: insert in key order, replacing an existing entry with the same key. -/
def mapInsert (key : Nat) (value : List Nat) : List (Nat × List Nat) → List (Nat × List Nat)
  | [] => [(key, value)]
  | entry :: rest =>
    if key < entry.1 then (key, value) :: entry :: rest
    else if key = entry.1 then (key, value) :: rest
    else entry :: mapInsert key value rest

/-- Method `Client::sortMessageByType`: under the mailbox lock, append a Text or Event
message to its vector, or store a Snapshot message into the map under its
`senderID` (overwriting any existing entry for that sender). -/
def sortMessageByType (msg : Message) (mailbox : Mailbox) : Mailbox :=
  match msg with
  | .text s p => { mailbox with textMessages := mailbox.textMessages ++ [(s, p)] }
  | .event s p => { mailbox with eventMessages := mailbox.eventMessages ++ [(s, p)] }
  | .snapshot s p =>
    { mailbox with snapshotMessages := mapInsert s p mailbox.snapshotMessages }

lemma mem_mapInsert (key : Nat) (value : List Nat) (l : List (Nat × List Nat))
    (x : Nat × List Nat) (hx : x ∈ mapInsert key value l) :
    x = (key, value) ∨ x ∈ l := by
  induction l with
  | nil =>
    simp only [mapInsert, List.mem_singleton] at hx
    exact Or.inl hx
  | cons e rest ih =>
    simp only [mapInsert] at hx
    by_cases h1 : key < e.1
    · rw [if_pos h1] at hx
      rcases List.mem_cons.mp hx with h | h
      · exact Or.inl h
      · exact Or.inr h
    rw [if_neg h1] at hx
    by_cases h2 : key = e.1
    · rw [if_pos h2] at hx
      rcases List.mem_cons.mp hx with h | h
      · exact Or.inl h
      · exact Or.inr (List.mem_cons_of_mem e h)
    rw [if_neg h2] at hx
    rcases List.mem_cons.mp hx with h | h
    · exact Or.inr (h ▸ List.mem_cons_self e rest)
    · rcases ih h with h' | h'
      · exact Or.inl h'
      · exact Or.inr (List.mem_cons_of_mem e h')

lemma mapInsert_pairwise (key : Nat) (value : List Nat) (l : List (Nat × List Nat))
    (hl : List.Pairwise (fun a b => a.1 < b.1) l) :
    List.Pairwise (fun a b => a.1 < b.1) (mapInsert key value l) := by
  induction l with
  | nil => simp [mapInsert]
  | cons e rest ih =>
    rw [List.pairwise_cons] at hl
    obtain ⟨he, hrest⟩ := hl
    simp only [mapInsert]
    by_cases h1 : key < e.1
    · rw [if_pos h1]
      rw [List.pairwise_cons]
      refine ⟨?_, List.pairwise_cons.mpr ⟨he, hrest⟩⟩
      intro x hx
      rcases List.mem_cons.mp hx with h | h
      · rw [h]
        exact h1
      · exact lt_trans h1 (he x h)
    rw [if_neg h1]
    by_cases h2 : key = e.1
    · rw [if_pos h2]
      rw [List.pairwise_cons]
      refine ⟨?_, hrest⟩
      intro x hx
      rw [h2]
      exact he x hx
    rw [if_neg h2]
    rw [List.pairwise_cons]
    refine ⟨?_, ih hrest⟩
    intro x hx
    rcases mem_mapInsert key value rest x hx with h | h
    · rw [h]
      omega
    · exact he x h

lemma filter_eq_nil_of_keys_gt (key : Nat) (l : List (Nat × List Nat))
    (h : ∀ e ∈ l, key < e.1) :
    l.filter (fun e => e.1 == key) = [] := by
  rw [List.filter_eq_nil_iff]
  intro e he
  have := h e he
  simp only [beq_iff_eq]
  omega

lemma filter_mapInsert (key : Nat) (value : List Nat) (l : List (Nat × List Nat))
    (hl : List.Pairwise (fun a b => a.1 < b.1) l) :
    (mapInsert key value l).filter (fun e => e.1 == key) = [(key, value)] := by
  induction l with
  | nil => simp [mapInsert]
  | cons e rest ih =>
    rw [List.pairwise_cons] at hl
    obtain ⟨he, hrest⟩ := hl
    simp only [mapInsert]
    by_cases h1 : key < e.1
    · rw [if_pos h1]
      rw [List.filter_cons_of_pos (by simp), List.filter_cons_of_neg (by simp; omega)]
      rw [filter_eq_nil_of_keys_gt key rest fun x hx => lt_trans h1 (he x hx)]
    rw [if_neg h1]
    by_cases h2 : key = e.1
    · rw [if_pos h2]
      rw [List.filter_cons_of_pos (by simp)]
      rw [filter_eq_nil_of_keys_gt key rest fun x hx => h2 ▸ he x hx]
    rw [if_neg h2]
    rw [List.filter_cons_of_neg (by simp; omega)]
    exact ih hrest

lemma fold_snapshot_foldl (S : Nat) (qs : List (List Nat)) (mailbox : Mailbox) :
    ((qs.foldl (fun acc q => sortMessageByType (Message.snapshot S q) acc)
        mailbox)).snapshotMessages =
      qs.foldl (fun l q => mapInsert S q l) mailbox.snapshotMessages := by
  induction qs generalizing mailbox with
  | nil => rfl
  | cons q rest ih =>
    simp only [List.foldl_cons]
    rw [ih]
    rfl

lemma foldl_mapInsert_pairwise (S : Nat) (qs : List (List Nat))
    (l : List (Nat × List Nat)) (hl : List.Pairwise (fun a b => a.1 < b.1) l) :
    List.Pairwise (fun a b => a.1 < b.1) (qs.foldl (fun acc q => mapInsert S q acc) l) := by
  induction qs generalizing l with
  | nil => exact hl
  | cons q rest ih =>
    simp only [List.foldl_cons]
    exact ih _ (mapInsert_pairwise S q l hl)

/-- Claim C4: between two drain ticks, classifying any sequence of Snapshot
messages from sender `S` leaves exactly one map entry for `S`, holding the last
payload inserted (each insertion overwrites the previous entry for `S`), while
Text and Event classification appends to the tail of the respective FIFO
vector. -/
theorem snapshot_last_write_wins (mailbox : Mailbox) (S : Nat)
    (ps : List (List Nat)) (p : List Nat) (s2 : Nat) (p2 : List Nat)
    (hsorted : List.Pairwise (fun a b => a.1 < b.1) mailbox.snapshotMessages) :
    (((ps ++ [p]).foldl (fun mb q => sortMessageByType (Message.snapshot S q) mb)
          mailbox).snapshotMessages.filter (fun e => e.1 == S)) = [(S, p)] ∧
      (sortMessageByType (Message.text s2 p2) mailbox).textMessages =
        mailbox.textMessages ++ [(s2, p2)] ∧
      (sortMessageByType (Message.event s2 p2) mailbox).eventMessages =
        mailbox.eventMessages ++ [(s2, p2)] := by
  refine ⟨?_, rfl, rfl⟩
  rw [fold_snapshot_foldl, List.foldl_append, List.foldl_cons, List.foldl_nil]
  exact filter_mapInsert S p _ (foldl_mapInsert_pairwise S ps _ hsorted)

/-- Witness for `snapshot_last_write_wins`: two snapshots from sender 2 before a
drain leave exactly the second payload. -/
theorem snapshot_last_write_wins_witness :
    List.Pairwise (fun (a : Nat × List Nat) (b : Nat × List Nat) => a.1 < b.1)
        (Mailbox.mk [] [] [(1, [7])]).snapshotMessages ∧
      ((([[5]] ++ [[6]]).foldl
            (fun mb q => sortMessageByType (Message.snapshot 2 q) mb)
            (Mailbox.mk [] [] [(1, [7])])).snapshotMessages.filter
          (fun e => e.1 == 2) = [(2, [6])] ∧
        (sortMessageByType (Message.text 3 [8]) (Mailbox.mk [] [] [(1, [7])])).textMessages =
          (Mailbox.mk [] [] [(1, [7])]).textMessages ++ [(3, [8])] ∧
        (sortMessageByType (Message.event 3 [8]) (Mailbox.mk [] [] [(1, [7])])).eventMessages =
          (Mailbox.mk [] [] [(1, [7])]).eventMessages ++ [(3, [8])]) :=
  ⟨by decide,
    snapshot_last_write_wins (Mailbox.mk [] [] [(1, [7])]) 2 [[5]] [6] 3 [8] (by decide)⟩

/-- Observable actions of one pass of the `Client::processMessages` drain body:
taking and releasing `messageMutex`, and invoking the per-kind handler
(`displayTextMessage` / `processEventMessage` / `processSnapshotMessage`) on one
removed entry. -/
inductive DrainAction where
  | acquire
  | release
  | handleText (senderID : Nat) (payload : List Nat)
  | handleEvent (senderID : Nat) (payload : List Nat)
  | handleSnapshot (senderID : Nat) (payload : List Nat)
deriving DecidableEq

/-- The `for (auto it = textMessages.begin(); ...)` loop: handle the front
entry, erase it, continue with the rest. -/
def drainTextLoop : List (Nat × List Nat) → List DrainAction
  | [] => []
  | entry :: rest => DrainAction.handleText entry.1 entry.2 :: drainTextLoop rest

/-- The erase loop over `eventMessages`. -/
def drainEventLoop : List (Nat × List Nat) → List DrainAction
  | [] => []
  | entry :: rest => DrainAction.handleEvent entry.1 entry.2 :: drainEventLoop rest

/-- The erase loop over `snapshotMessages` (in map iteration order). -/
def drainSnapshotLoop : List (Nat × List Nat) → List DrainAction
  | [] => []
  | entry :: rest => DrainAction.handleSnapshot entry.1 entry.2 :: drainSnapshotLoop rest

/-- One 100 ms tick of `Client::processMessages`: the `lock_guard` is acquired
at the top of the block and released at its end, and the three erase loops run
inside it; each loop empties its container.  Returns the action trace and the
mailbox after the tick. -/
def processMessagesTick (mailbox : Mailbox) : List DrainAction × Mailbox :=
  (DrainAction.acquire ::
      (drainTextLoop mailbox.textMessages ++ drainEventLoop mailbox.eventMessages ++
        drainSnapshotLoop mailbox.snapshotMessages ++ [DrainAction.release]),
    Mailbox.mk [] [] [])

/-- Whether an action is a handler invocation. -/
def DrainAction.isHandle : DrainAction → Bool
  | .acquire => false
  | .release => false
  | _ => true

/-- Modelled from the spec side of claim C8 ("the lock released before the
handlers are invoked"): a trace satisfies the claimed shape only if no handler
invocation precedes the release of the mailbox lock. -/
def handlersAfterUnlock (trace : List DrainAction) : Bool :=
  (trace.takeWhile (fun a => a != DrainAction.release)).all
    (fun a => a.isHandle = false)

/-- Counterexample to claim C8 as stated: for a mailbox holding one Text entry,
the drain tick invokes its handler between acquiring and releasing the lock, so
the lock is not released before the handlers run. -/
theorem drain_handles_inside_lock :
    handlersAfterUnlock (processMessagesTick (Mailbox.mk [(1, [104, 105])] [] [])).1 = false := by
  decide

/-- Claim C8 (amended): each drain tick removes every entry of all three
containers in one critical section and invokes the per-kind handlers for
exactly the removed entries — all Text in FIFO order, then all Event in FIFO
order, then all Snapshot in map iteration order — but the handlers run while
the mailbox lock is still held (inside the `lock_guard` block, before the
release), and after the tick all three containers are empty. -/
theorem drain_tick_trace (mailbox : Mailbox) :
    (processMessagesTick mailbox).1 =
        DrainAction.acquire ::
          (mailbox.textMessages.map (fun e => DrainAction.handleText e.1 e.2) ++
            mailbox.eventMessages.map (fun e => DrainAction.handleEvent e.1 e.2) ++
            mailbox.snapshotMessages.map (fun e => DrainAction.handleSnapshot e.1 e.2) ++
            [DrainAction.release]) ∧
      (processMessagesTick mailbox).2 = Mailbox.mk [] [] [] := by
  have ht : ∀ l : List (Nat × List Nat),
      drainTextLoop l = l.map (fun e => DrainAction.handleText e.1 e.2) := by
    intro l
    induction l with
    | nil => rfl
    | cons e rest ih => simp [drainTextLoop, ih]
  have hev : ∀ l : List (Nat × List Nat),
      drainEventLoop l = l.map (fun e => DrainAction.handleEvent e.1 e.2) := by
    intro l
    induction l with
    | nil => rfl
    | cons e rest ih => simp [drainEventLoop, ih]
  have hs : ∀ l : List (Nat × List Nat),
      drainSnapshotLoop l = l.map (fun e => DrainAction.handleSnapshot e.1 e.2) := by
    intro l
    induction l with
    | nil => rfl
    | cons e rest ih => simp [drainSnapshotLoop, ih]
  exact ⟨by rw [show (processMessagesTick mailbox).1 = DrainAction.acquire ::
      (drainTextLoop mailbox.textMessages ++ drainEventLoop mailbox.eventMessages ++
        drainSnapshotLoop mailbox.snapshotMessages ++ [DrainAction.release]) from rfl,
      ht, hev, hs], rfl⟩

/-- The mutable server state relevant to id assignment: the `uint8_t
nextClientID` counter and the registered `clients` vector. -/
structure ServerState where
  nextClientID : Nat
  clients : List ClientHandler
deriving DecidableEq

/-- Constructor `Server::Server() : nextClientID(1), isRunning(true)` with an empty
registry. -/
def initialServerState : ServerState :=
  ServerState.mk 1 []

/-- Events observable at the registry: `acceptClients` accepting a socket, and
a handler's teardown removing its id from the registry. -/
inductive ServerEvent where
  | accept (socket : Nat)
  | disconnect (clientID : Nat)
deriving DecidableEq

/-- One registry transition, also accumulating the list of assigned ids.
Accept (`Server::acceptClients`): `uint8_t clientID = nextClientID++` (8-bit
wraparound) and `clients.push_back(...)`.  Disconnect (`Server::handleClient`
teardown): erase every registry entry with that id; `nextClientID` is
untouched. -/
def serverStep : ServerState × List Nat → ServerEvent → ServerState × List Nat
  | (st, ids), .accept socket =>
    (ServerState.mk ((st.nextClientID + 1) % 256)
        (st.clients ++ [ClientHandler.mk socket st.nextClientID]),
      ids ++ [st.nextClientID])
  | (st, ids), .disconnect clientID =>
    (ServerState.mk st.nextClientID
        (st.clients.filter (fun ch => ch.clientID != clientID)),
      ids)

/-- Run the server from its constructor state over a sequence of events. -/
def serverRun (events : List ServerEvent) : ServerState × List Nat :=
  events.foldl serverStep (initialServerState, [])

/-- Number of accept events in a trace. -/
def countAccepts (events : List ServerEvent) : Nat :=
  events.countP fun ev =>
    match ev with
    | .accept _ => true
    | .disconnect _ => false

lemma serverRun_ids_aux (events : List ServerEvent) :
    ∀ (a : Nat) (cl : List ClientHandler) (acc : List Nat),
      a + countAccepts events ≤ 256 →
      (events.foldl serverStep (ServerState.mk a cl, acc)).2 =
        acc ++ List.range' a (countAccepts events) := by
  induction events with
  | nil =>
    intro a cl acc _
    simp [countAccepts]
  | cons ev rest ih =>
    intro a cl acc hbound
    cases ev with
    | accept socket =>
      have hc : countAccepts (ServerEvent.accept socket :: rest) =
          countAccepts rest + 1 := by
        simp [countAccepts, List.countP_cons]
      rw [hc] at hbound
      rw [List.foldl_cons, hc]
      show (rest.foldl serverStep
          (ServerState.mk ((a + 1) % 256) (cl ++ [ClientHandler.mk socket a]),
            acc ++ [a])).2 = _
      by_cases ha : a + 1 < 256
      · have hmod : (a + 1) % 256 = a + 1 := Nat.mod_eq_of_lt ha
        rw [hmod, ih (a + 1) _ _ (by omega), List.append_assoc]
        rfl
      · have ha' : a + 1 = 256 := by omega
        have hc0 : countAccepts rest = 0 := by omega
        have hmod : (a + 1) % 256 = 0 := by
          rw [ha']
        rw [hmod, ih 0 _ _ (by omega), hc0]
        simp [List.range']
    | disconnect clientID =>
      have hc : countAccepts (ServerEvent.disconnect clientID :: rest) =
          countAccepts rest := by
        simp [countAccepts, List.countP_cons]
      rw [hc] at hbound
      rw [List.foldl_cons, hc]
      show (rest.foldl serverStep
          (ServerState.mk a (cl.filter (fun ch => ch.clientID != clientID)), acc)).2 = _
      exact ih a _ acc hbound

/-- Claim C9: over any event trace with at most 255 accepts (disconnects
allowed anywhere), the ids assigned by the server are exactly `1, 2, ..., N` in
acceptance order — distinct, sequential starting at 1 and strictly increasing —
and an id freed by a disconnect is never assigned again (`nextClientID` never
moves backwards). -/
theorem accept_ids_sequential (events : List ServerEvent)
    (h : countAccepts events ≤ 255) :
    (serverRun events).2 = List.range' 1 (countAccepts events) ∧
      (serverRun events).2.Nodup ∧
      List.Pairwise (fun a b => a < b) (serverRun events).2 := by
  have hids := serverRun_ids_aux events 1 [] [] (by omega)
  have heq : (serverRun events).2 = List.range' 1 (countAccepts events) := by
    show (events.foldl serverStep (ServerState.mk 1 [], [])).2 = _
    rw [hids]
    rfl
  exact ⟨heq, by rw [heq]; exact List.nodup_range' _ _,
    by rw [heq]; exact List.pairwise_lt_range' _ _⟩

/-- Witness for `accept_ids_sequential`: three accepts with an interleaved
disconnect assign ids 1, 2, 3. -/
theorem accept_ids_sequential_witness :
    countAccepts [ServerEvent.accept 10, ServerEvent.accept 11,
        ServerEvent.disconnect 1, ServerEvent.accept 12] ≤ 255 ∧
      ((serverRun [ServerEvent.accept 10, ServerEvent.accept 11,
            ServerEvent.disconnect 1, ServerEvent.accept 12]).2 =
          List.range' 1 (countAccepts [ServerEvent.accept 10, ServerEvent.accept 11,
            ServerEvent.disconnect 1, ServerEvent.accept 12]) ∧
        (serverRun [ServerEvent.accept 10, ServerEvent.accept 11,
            ServerEvent.disconnect 1, ServerEvent.accept 12]).2.Nodup ∧
        List.Pairwise (fun a b => a < b)
          (serverRun [ServerEvent.accept 10, ServerEvent.accept 11,
            ServerEvent.disconnect 1, ServerEvent.accept 12]).2) :=
  ⟨by decide,
    accept_ids_sequential [ServerEvent.accept 10, ServerEvent.accept 11,
      ServerEvent.disconnect 1, ServerEvent.accept 12] (by decide)⟩

lemma serverRun_clients_aux (events : List ServerEvent) :
    ∀ (a : Nat) (cl : List ClientHandler) (acc : List Nat),
      a + countAccepts events ≤ 256 →
      (countAccepts events = 0 ∨ 1 ≤ a) →
      (∀ ch ∈ cl, ch.clientID ≠ 0) →
      ∀ ch ∈ ((events.foldl serverStep (ServerState.mk a cl, acc)).1).clients,
        ch.clientID ≠ 0 := by
  induction events with
  | nil =>
    intro a cl acc _ _ hcl
    exact hcl
  | cons ev rest ih =>
    intro a cl acc hbound hpos hcl
    cases ev with
    | accept socket =>
      have hc : countAccepts (ServerEvent.accept socket :: rest) =
          countAccepts rest + 1 := by
        simp [countAccepts, List.countP_cons]
      rw [hc] at hbound
      have ha1 : 1 ≤ a := by
        rcases hpos with h0 | h1
        · rw [hc] at h0
          omega
        · exact h1
      rw [List.foldl_cons]
      show ∀ ch ∈ ((rest.foldl serverStep
          (ServerState.mk ((a + 1) % 256) (cl ++ [ClientHandler.mk socket a]),
            acc ++ [a])).1).clients, ch.clientID ≠ 0
      have hcl' : ∀ ch ∈ cl ++ [ClientHandler.mk socket a], ch.clientID ≠ 0 := by
        intro ch hch
        rcases List.mem_append.mp hch with hmem | hmem
        · exact hcl ch hmem
        · rw [List.mem_singleton.mp hmem]
          show a ≠ 0
          omega
      by_cases ha : a + 1 < 256
      · have hmod : (a + 1) % 256 = a + 1 := Nat.mod_eq_of_lt ha
        rw [hmod]
        exact ih (a + 1) _ _ (by omega) (Or.inr (by omega)) hcl'
      · have hc0 : countAccepts rest = 0 := by omega
        have hmod : (a + 1) % 256 = 0 := by
          have : a + 1 = 256 := by omega
          rw [this]
        rw [hmod]
        exact ih 0 _ _ (by omega) (Or.inl hc0) hcl'
    | disconnect clientID =>
      have hc : countAccepts (ServerEvent.disconnect clientID :: rest) =
          countAccepts rest := by
        simp [countAccepts, List.countP_cons]
      rw [List.foldl_cons]
      show ∀ ch ∈ ((rest.foldl serverStep
          (ServerState.mk a (cl.filter (fun ch => ch.clientID != clientID)),
            acc)).1).clients, ch.clientID ≠ 0
      refine ih a _ acc (by omega) ?_ ?_
      · rcases hpos with h0 | h1
        · rw [hc] at h0
          exact Or.inl h0
        · exact Or.inr h1
      · intro ch hch
        exact hcl ch (List.mem_of_mem_filter hch)

lemma broadcast_no_exclude (msg : Message) (clients : List ClientHandler)
    (h : ∀ ch ∈ clients, ch.clientID ≠ 0) :
    broadcastMessage msg 0 clients = clients.map fun ch => (ch, wireFrame msg) := by
  induction clients with
  | nil => rfl
  | cons c rest ih =>
    have hc : c.clientID ≠ 0 := h c (List.mem_cons_self c rest)
    have ih' := ih fun ch hch => h ch (List.mem_cons_of_mem c hch)
    simp only [broadcastMessage, List.filterMap_cons, if_pos hc, List.map_cons] at ih' ⊢
    exact congrArg (List.cons _) ih'

/-- Claim C10: in every registry state reachable with at most 255 accepts no
registered connection has id 0, so `broadcastMessage` called with the default
`excludeID = 0` sentinel writes the frame to every registered connection and
excludes no one. -/
theorem sentinel_exclude_zero_hits_everyone (events : List ServerEvent) (msg : Message)
    (h : countAccepts events ≤ 255) :
    (∀ ch ∈ (serverRun events).1.clients, ch.clientID ≠ 0) ∧
      broadcastMessage msg 0 (serverRun events).1.clients =
        (serverRun events).1.clients.map (fun ch => (ch, wireFrame msg)) := by
  have hcl : ∀ ch ∈ (serverRun events).1.clients, ch.clientID ≠ 0 := by
    show ∀ ch ∈ ((events.foldl serverStep (ServerState.mk 1 [], [])).1).clients, _
    exact serverRun_clients_aux events 1 [] [] (by omega) (Or.inr (by omega))
      (by intro ch hch; exact absurd hch (List.not_mem_nil ch))
  exact ⟨hcl, broadcast_no_exclude msg _ hcl⟩

/-- Witness for `sentinel_exclude_zero_hits_everyone` after two accepts. -/
theorem sentinel_exclude_zero_hits_everyone_witness :
    countAccepts [ServerEvent.accept 7, ServerEvent.accept 8] ≤ 255 ∧
      ((∀ ch ∈ (serverRun [ServerEvent.accept 7, ServerEvent.accept 8]).1.clients,
          ch.clientID ≠ 0) ∧
        broadcastMessage (Message.text 0 []) 0
            (serverRun [ServerEvent.accept 7, ServerEvent.accept 8]).1.clients =
          (serverRun [ServerEvent.accept 7, ServerEvent.accept 8]).1.clients.map
            (fun ch => (ch, wireFrame (Message.text 0 [])))) :=
  ⟨by decide,
    sentinel_exclude_zero_hits_everyone [ServerEvent.accept 7, ServerEvent.accept 8]
      (Message.text 0 []) (by decide)⟩
